import Mathlib

/-!
Verification of the GraphQL query validator in `graphql_validation.go` of the
`graph` package: the depth, alias, complexity and introspection analyzers and
the `ValidateGraphQLQuery` policy that combines them.

The AST mirrors the fragment of `graphql-go`'s `ast` package that the
validator reads: a `Document` holds a list of definitions; an operation or
fragment definition holds an optional selection set; a selection is a field
(optional alias, optional name, optional nested selection set), an inline
fragment (optional selection set), or a fragment spread.  Go `int`s are
modelled as `Int`.
-/

namespace Graph

/-- A selection inside a selection set, mirroring `ast.Field`,
`ast.InlineFragment` and `ast.FragmentSpread`.  A selection set is a
`List Selection` (the `Selections` slice of `ast.SelectionSet`); the Go
pointers `Alias`, `Name` and `SelectionSet` are nullable, hence `Option`. -/
inductive Selection where
  | field (aliasVal : Option String) (name : Option String)
      (selectionSet : Option (List Selection))
  | inlineFragment (selectionSet : Option (List Selection))
  | fragmentSpread (name : String)

/-- A top-level definition of a document: `ast.OperationDefinition`,
`ast.FragmentDefinition`, or any other node kind (which every analyzer's
type switch ignores). -/
inductive Definition where
  | operation (selectionSet : Option (List Selection))
  | fragment (selectionSet : Option (List Selection))
  | otherDef

/-- `ast.Document`: a list of top-level definitions. -/
structure Document where
  definitions : List Definition

/-- Go `calculateSelectionSetDepth`: starting from `maxDepth := currentDepth`,
takes the max over the per-selection depths.  A field with a nested selection
set recurses at `currentDepth+1`, a leaf field yields `currentDepth+1`, an
inline fragment recurses at `currentDepth` (its `var depth int` stays `0`
when the selection set is nil), a fragment spread yields `currentDepth`. -/
def calculateSelectionSetDepth : List Selection → Int → Int
  | [], currentDepth => currentDepth
  | Selection.field _ _ (some ss) :: rest, currentDepth =>
      max (calculateSelectionSetDepth ss (currentDepth + 1))
        (calculateSelectionSetDepth rest currentDepth)
  | Selection.field _ _ none :: rest, currentDepth =>
      max (currentDepth + 1) (calculateSelectionSetDepth rest currentDepth)
  | Selection.inlineFragment (some ss) :: rest, currentDepth =>
      max (calculateSelectionSetDepth ss currentDepth)
        (calculateSelectionSetDepth rest currentDepth)
  | Selection.inlineFragment none :: rest, currentDepth =>
      max 0 (calculateSelectionSetDepth rest currentDepth)
  | Selection.fragmentSpread _ :: rest, currentDepth =>
      max currentDepth (calculateSelectionSetDepth rest currentDepth)

/-- Go `calculateQueryDepth` on an `ast.OperationDefinition` or
`ast.FragmentDefinition` node: `max(currentDepth, selection-set depth)`,
where a nil selection set contributes nothing. -/
def calculateDefinitionDepth : Definition → Int → Int
  | Definition.operation (some ss), currentDepth =>
      max currentDepth (calculateSelectionSetDepth ss currentDepth)
  | Definition.operation none, currentDepth => currentDepth
  | Definition.fragment (some ss), currentDepth =>
      max currentDepth (calculateSelectionSetDepth ss currentDepth)
  | Definition.fragment none, currentDepth => currentDepth
  | Definition.otherDef, currentDepth => currentDepth

/-- The `ast.Document` loop of Go `calculateQueryDepth`: `maxDepth` starts at
`currentDepth` and every definition's depth is folded in with `max`. -/
def calculateDefinitionsDepth : List Definition → Int → Int
  | [], currentDepth => currentDepth
  | d :: rest, currentDepth =>
      max (calculateDefinitionDepth d currentDepth)
        (calculateDefinitionsDepth rest currentDepth)

/-- Go `calculateQueryDepth` on an `ast.Document`: the max over the
definitions' depths, starting from `currentDepth`. -/
def calculateQueryDepth (doc : Document) (currentDepth : Int) : Int :=
  calculateDefinitionsDepth doc.definitions currentDepth

/-- Go `countSelectionSetAliases`: a field whose `Alias` is non-nil with a
non-empty `Value` counts one; nested selection sets and inline-fragment
bodies are recursed into; fragment spreads contribute nothing. -/
def countSelectionSetAliases : List Selection → Int
  | [] => 0
  | Selection.field (some a) _ (some ss) :: rest =>
      (if a ≠ "" then 1 else 0) + countSelectionSetAliases ss
        + countSelectionSetAliases rest
  | Selection.field (some a) _ none :: rest =>
      (if a ≠ "" then 1 else 0) + countSelectionSetAliases rest
  | Selection.field none _ (some ss) :: rest =>
      countSelectionSetAliases ss + countSelectionSetAliases rest
  | Selection.field none _ none :: rest => countSelectionSetAliases rest
  | Selection.inlineFragment (some ss) :: rest =>
      countSelectionSetAliases ss + countSelectionSetAliases rest
  | Selection.inlineFragment none :: rest => countSelectionSetAliases rest
  | Selection.fragmentSpread _ :: rest => countSelectionSetAliases rest

/-- Go `countAliases` on a single definition node. -/
def countDefinitionAliases : Definition → Int
  | Definition.operation (some ss) => countSelectionSetAliases ss
  | Definition.operation none => 0
  | Definition.fragment (some ss) => countSelectionSetAliases ss
  | Definition.fragment none => 0
  | Definition.otherDef => 0

/-- The `ast.Document` loop of Go `countAliases`: the counts of the
definitions are summed. -/
def countDefinitionsAliases : List Definition → Int
  | [] => 0
  | d :: rest => countDefinitionAliases d + countDefinitionsAliases rest

/-- Go `countAliases` on an `ast.Document`: the sum over definitions. -/
def countAliases (doc : Document) : Int :=
  countDefinitionsAliases doc.definitions

/-- Go `calculateSelectionSetComplexity`: every field adds `multiplier`; a
nested selection set is recursed into at `multiplier*2` and added; an inline
fragment's body is recursed at the same multiplier; a fragment spread adds
`multiplier`.  This is the mathematical (unbounded) value of that
computation; `calculateSelectionSetComplexityInt64` below applies Go's
two's-complement `int` wrap at every arithmetic step and agrees with this
value exactly when it fits in `int64`. -/
def calculateSelectionSetComplexity : List Selection → Int → Int
  | [], _ => 0
  | Selection.field _ _ (some ss) :: rest, multiplier =>
      multiplier + calculateSelectionSetComplexity ss (multiplier * 2)
        + calculateSelectionSetComplexity rest multiplier
  | Selection.field _ _ none :: rest, multiplier =>
      multiplier + calculateSelectionSetComplexity rest multiplier
  | Selection.inlineFragment (some ss) :: rest, multiplier =>
      calculateSelectionSetComplexity ss multiplier
        + calculateSelectionSetComplexity rest multiplier
  | Selection.inlineFragment none :: rest, multiplier =>
      calculateSelectionSetComplexity rest multiplier
  | Selection.fragmentSpread _ :: rest, multiplier =>
      multiplier + calculateSelectionSetComplexity rest multiplier

/-- Go `calculateQueryComplexity` on a single definition node. -/
def calculateDefinitionComplexity : Definition → Int → Int
  | Definition.operation (some ss), multiplier =>
      calculateSelectionSetComplexity ss multiplier
  | Definition.operation none, _ => 0
  | Definition.fragment (some ss), multiplier =>
      calculateSelectionSetComplexity ss multiplier
  | Definition.fragment none, _ => 0
  | Definition.otherDef, _ => 0

/-- The `ast.Document` loop of Go `calculateQueryComplexity`: the
definitions' complexities are summed. -/
def calculateDefinitionsComplexity : List Definition → Int → Int
  | [], _ => 0
  | d :: rest, multiplier =>
      calculateDefinitionComplexity d multiplier
        + calculateDefinitionsComplexity rest multiplier

/-- Go `calculateQueryComplexity` on an `ast.Document`: the sum over
definitions. -/
def calculateQueryComplexity (doc : Document) (multiplier : Int) : Int :=
  calculateDefinitionsComplexity doc.definitions multiplier

/-- Go `hasIntrospectionInSelectionSet`: true when some field (nested
selection sets and inline-fragment bodies included, spreads not expanded)
has non-nil `Name` whose value is `__schema` or `__type`. -/
def hasIntrospectionInSelectionSet : List Selection → Bool
  | [] => false
  | Selection.field _ (some nm) (some ss) :: rest =>
      (nm == "__schema" || nm == "__type") || hasIntrospectionInSelectionSet ss
        || hasIntrospectionInSelectionSet rest
  | Selection.field _ (some nm) none :: rest =>
      (nm == "__schema" || nm == "__type") || hasIntrospectionInSelectionSet rest
  | Selection.field _ none (some ss) :: rest =>
      hasIntrospectionInSelectionSet ss || hasIntrospectionInSelectionSet rest
  | Selection.field _ none none :: rest => hasIntrospectionInSelectionSet rest
  | Selection.inlineFragment (some ss) :: rest =>
      hasIntrospectionInSelectionSet ss || hasIntrospectionInSelectionSet rest
  | Selection.inlineFragment none :: rest => hasIntrospectionInSelectionSet rest
  | Selection.fragmentSpread _ :: rest => hasIntrospectionInSelectionSet rest

/-- Go `hasIntrospection` on a single definition node. -/
def hasIntrospectionInDefinition : Definition → Bool
  | Definition.operation (some ss) => hasIntrospectionInSelectionSet ss
  | Definition.operation none => false
  | Definition.fragment (some ss) => hasIntrospectionInSelectionSet ss
  | Definition.fragment none => false
  | Definition.otherDef => false

/-- Go `hasIntrospection` on an `ast.Document`: true when some definition
contains an introspection field. -/
def hasIntrospection (doc : Document) : Bool :=
  doc.definitions.any hasIntrospectionInDefinition

/-- The outcome of `ValidateGraphQLQuery`.  The Go function returns `nil`
(here `allowed`) or one of four `fmt.Errorf` errors; each error carries the
limit and the observed value where the Go message does. -/
inductive ValidationResult where
  | allowed
  | introspectionDisabled
  | depthExceeded (limit actual : Int)
  | aliasLimitExceeded (limit actual : Int)
  | complexityExceeded (limit actual : Int)
deriving DecidableEq, Repr

/-- The value stored for a key by `json.Unmarshal` into
`map[string]interface{}`, as far as the validator inspects it: the type
assertion `queryData["query"].(string)` only distinguishes a string from
any other value. -/
inductive JsonValue where
  | str (s : String)
  | nonString
deriving DecidableEq, Repr

/-- Lines 205-211 of `graphql_validation.go`: try to unmarshal the body as a
JSON object (`unmarshal` stands for `json.Unmarshal` into
`map[string]interface{}`, returning `none` on error); when that succeeds and
the `query` member is a string, that string replaces the query text. -/
def extractQueryText (unmarshal : String → Option (List (String × JsonValue)))
    (queryString : String) : String :=
  match unmarshal queryString with
  | some queryData =>
    match queryData.lookup "query" with
    | some (JsonValue.str q) => q
    | _ => queryString
  | none => queryString

/-- Lines 227-254 of `ValidateGraphQLQuery`: the check chain run on a
successfully parsed document — introspection, then depth (limit 10, starting
depth 0), then aliases (limit 4), then complexity (limit 200, base
multiplier 1); the first failing check produces the error. -/
def validateParsedDocument (doc : Document) : ValidationResult :=
  if hasIntrospection doc then ValidationResult.introspectionDisabled
  else
    let depth := calculateQueryDepth doc 0
    if depth > 10 then ValidationResult.depthExceeded 10 depth
    else
      let aliasCount := countAliases doc
      if aliasCount > 4 then ValidationResult.aliasLimitExceeded 4 aliasCount
      else
        let complexity := calculateQueryComplexity doc 1
        if complexity > 200 then ValidationResult.complexityExceeded 200 complexity
        else ValidationResult.allowed

/-- Go `ValidateGraphQLQuery(queryString, schema)`.  The external
`parser.Parse` is the parameter `parse` (`none` models a parse error) and
`json.Unmarshal` is the parameter `unmarshal`; the `schema` argument is
accepted but never read.  An empty query string and a parse failure both
return `nil` (allowed). -/
def ValidateGraphQLQuery {Schema : Type}
    (unmarshal : String → Option (List (String × JsonValue)))
    (parse : String → Option Document)
    (queryString : String) (schema : Schema) : ValidationResult :=
  if queryString = "" then ValidationResult.allowed
  else
    match parse (extractQueryText unmarshal queryString) with
    | none => ValidationResult.allowed
    | some doc => validateParsedDocument doc

/-! ### Concrete documents for the spec's scenarios -/

/-- The document the parser produces for Scenario B's query
`\x7b a \x7b b \x7b c \x7b d \x7b e \x7b f \x7d \x7d \x7d \x7d \x7d \x7d`:
six nested composite fields. -/
def docScenarioB : Document :=
  ⟨[Definition.operation (some
    [Selection.field none (some "a") (some
      [Selection.field none (some "b") (some
        [Selection.field none (some "c") (some
          [Selection.field none (some "d") (some
            [Selection.field none (some "e") (some
              [Selection.field none (some "f") none])])])])])])]⟩

/-- One aliased branch `uN: user(id:N) \x7b name \x7d` of Scenario C. -/
def aliasedUserField (a : String) : Selection :=
  Selection.field (some a) (some "user")
    (some [Selection.field none (some "name") none])

/-- The document for Scenario C's query: five sibling fields, each carrying
an alias `u1` … `u5`. -/
def docScenarioC : Document :=
  ⟨[Definition.operation (some
    [aliasedUserField "u1", aliasedUserField "u2", aliasedUserField "u3",
     aliasedUserField "u4", aliasedUserField "u5"])]⟩

/-- The document for Scenario D's query
`\x7b __schema \x7b types \x7b name \x7d \x7d \x7d`. -/
def docScenarioD : Document :=
  ⟨[Definition.operation (some
    [Selection.field none (some "__schema") (some
      [Selection.field none (some "types") (some
        [Selection.field none (some "name") none])])])]⟩

/-- The document for the query `\x7b hello \x7d` of Scenarios A and F. -/
def docHello : Document :=
  ⟨[Definition.operation (some [Selection.field none (some "hello") none])]⟩

/-! ### Spec-side definitions

These re-state, in the spec's own words, the quantities the claims describe;
the theorems below compare them with the functions translated from the
source. -/

/-- Spec §4.1 depth of a selection set at depth `d`: the maximum of the
contributions of its selections, where a leaf field contributes `d+1`, a
composite field the depth of its selection set at `d+1`, an inline fragment
the depth of its selection set at `d` unchanged, and a fragment spread `d`
(never expanded).  An inline fragment without a body is not mentioned by the
spec and contributes nothing. -/
def specSelectionSetDepth : List Selection → Int → Int
  | [], d => d
  | Selection.field _ _ (some ss) :: rest, d =>
      max (specSelectionSetDepth ss (d + 1)) (specSelectionSetDepth rest d)
  | Selection.field _ _ none :: rest, d =>
      max (d + 1) (specSelectionSetDepth rest d)
  | Selection.inlineFragment (some ss) :: rest, d =>
      max (specSelectionSetDepth ss d) (specSelectionSetDepth rest d)
  | Selection.inlineFragment none :: rest, d => specSelectionSetDepth rest d
  | Selection.fragmentSpread _ :: rest, d =>
      max d (specSelectionSetDepth rest d)

/-- Spec §4.1: a top-level definition's selection set is evaluated at the
definition's own depth (not depth+1). -/
def specDefinitionDepth : Definition → Int
  | Definition.operation (some ss) => specSelectionSetDepth ss 0
  | Definition.fragment (some ss) => specSelectionSetDepth ss 0
  | _ => 0

/-- Spec §4.1 depth of a document: the maximum over the top-level
definitions; a document with no definitions yields 0. -/
def specQueryDepth (doc : Document) : Int :=
  doc.definitions.foldr (fun d acc => max (specDefinitionDepth d) acc) 0

/-- Spec §4.3 complexity of a selection set at multiplier `m`: each field
adds `m`; a field with a nested selection set additionally adds that set's
complexity at `2*m`; an inline fragment adds its set's complexity at the
same `m`; a fragment spread adds a flat `m`.  An inline fragment without a
body is not mentioned by the spec and adds nothing. -/
def specSelectionSetComplexity : List Selection → Int → Int
  | [], _ => 0
  | Selection.field _ _ (some ss) :: rest, m =>
      m + specSelectionSetComplexity ss (2 * m) + specSelectionSetComplexity rest m
  | Selection.field _ _ none :: rest, m => m + specSelectionSetComplexity rest m
  | Selection.inlineFragment (some ss) :: rest, m =>
      specSelectionSetComplexity ss m + specSelectionSetComplexity rest m
  | Selection.inlineFragment none :: rest, m => specSelectionSetComplexity rest m
  | Selection.fragmentSpread _ :: rest, m => m + specSelectionSetComplexity rest m

/-- Spec §4.3: a definition's complexity is its selection set's. -/
def specDefinitionComplexity : Definition → Int → Int
  | Definition.operation (some ss), m => specSelectionSetComplexity ss m
  | Definition.fragment (some ss), m => specSelectionSetComplexity ss m
  | _, _ => 0

/-- Spec §4.3 complexity of a document: the sum over all top-level
definitions. -/
def specQueryComplexity (doc : Document) (m : Int) : Int :=
  (doc.definitions.map (fun d => specDefinitionComplexity d m)).sum

/-- The names of the field nodes reachable in a selection set without
expanding fragment spreads (inline-fragment bodies are searched). -/
def reachableFieldNames : List Selection → List (Option String)
  | [] => []
  | Selection.field _ nm (some ss) :: rest =>
      nm :: (reachableFieldNames ss ++ reachableFieldNames rest)
  | Selection.field _ nm none :: rest => nm :: reachableFieldNames rest
  | Selection.inlineFragment (some ss) :: rest =>
      reachableFieldNames ss ++ reachableFieldNames rest
  | Selection.inlineFragment none :: rest => reachableFieldNames rest
  | Selection.fragmentSpread _ :: rest => reachableFieldNames rest

/-- The reachable field names of a top-level definition. -/
def definitionFieldNames : Definition → List (Option String)
  | Definition.operation (some ss) => reachableFieldNames ss
  | Definition.fragment (some ss) => reachableFieldNames ss
  | _ => []

/-- All reachable field names of a document. -/
def documentFieldNames (doc : Document) : List (Option String) :=
  doc.definitions.foldr (fun d acc => definitionFieldNames d ++ acc) []

/-- The aliases of the field nodes reachable in a selection set without
expanding fragment spreads. -/
def reachableFieldAliases : List Selection → List (Option String)
  | [] => []
  | Selection.field a _ (some ss) :: rest =>
      a :: (reachableFieldAliases ss ++ reachableFieldAliases rest)
  | Selection.field a _ none :: rest => a :: reachableFieldAliases rest
  | Selection.inlineFragment (some ss) :: rest =>
      reachableFieldAliases ss ++ reachableFieldAliases rest
  | Selection.inlineFragment none :: rest => reachableFieldAliases rest
  | Selection.fragmentSpread _ :: rest => reachableFieldAliases rest

/-- The reachable field aliases of a top-level definition. -/
def definitionFieldAliases : Definition → List (Option String)
  | Definition.operation (some ss) => reachableFieldAliases ss
  | Definition.fragment (some ss) => reachableFieldAliases ss
  | _ => []

/-- All reachable field aliases of a document. -/
def documentFieldAliases (doc : Document) : List (Option String) :=
  doc.definitions.foldr (fun d acc => definitionFieldAliases d ++ acc) []

/-- An alias slot that is present and non-empty. -/
def aliasPresent (a : Option String) : Bool :=
  !(a == none) && !(a == some "")

/-- The alias count a single field slot contributes. -/
def aliasContribution (a : Option String) : Int :=
  if aliasPresent a then 1 else 0

/-! ### Adding a sibling leaf field

`AddLeafSS a ss ss'` says `ss'` arises from `ss` by inserting, somewhere in
`ss` or in one of its (transitively) nested selection sets, one new leaf
field (no nested selection set) whose alias slot is `a`. -/

/-- One-leaf-insertion relation on selection sets. -/
inductive AddLeafSS (a : Option String) : List Selection → List Selection → Prop where
  | insert (nm : Option String) (ss : List Selection) :
      AddLeafSS a ss (Selection.field a nm none :: ss)
  | skip (s : Selection) (ss ss' : List Selection) :
      AddLeafSS a ss ss' → AddLeafSS a (s :: ss) (s :: ss')
  | inField (av nm : Option String) (sub sub' rest : List Selection) :
      AddLeafSS a sub sub' →
      AddLeafSS a (Selection.field av nm (some sub) :: rest)
        (Selection.field av nm (some sub') :: rest)
  | inInline (sub sub' rest : List Selection) :
      AddLeafSS a sub sub' →
      AddLeafSS a (Selection.inlineFragment (some sub) :: rest)
        (Selection.inlineFragment (some sub') :: rest)

/-- One-leaf-insertion relation on documents: the leaf is added to a
selection set inside one of the definitions. -/
inductive AddLeafDoc (a : Option String) : Document → Document → Prop where
  | inOperation (ss ss' : List Selection) (rest : List Definition) :
      AddLeafSS a ss ss' →
      AddLeafDoc a ⟨Definition.operation (some ss) :: rest⟩
        ⟨Definition.operation (some ss') :: rest⟩
  | inFragment (ss ss' : List Selection) (rest : List Definition) :
      AddLeafSS a ss ss' →
      AddLeafDoc a ⟨Definition.fragment (some ss) :: rest⟩
        ⟨Definition.fragment (some ss') :: rest⟩
  | skip (d : Definition) (defs defs' : List Definition) :
      AddLeafDoc a ⟨defs⟩ ⟨defs'⟩ →
      AddLeafDoc a ⟨d :: defs⟩ ⟨d :: defs'⟩

/-- `docHello` with one extra aliased sibling leaf field `w: x`. -/
def docHelloAliasedLeaf : Document :=
  ⟨[Definition.operation (some
    [Selection.field (some "w") (some "x") none,
     Selection.field none (some "hello") none])]⟩

/-- `docHello` with one extra plain (unaliased) sibling leaf field. -/
def docHelloPlainLeaf : Document :=
  ⟨[Definition.operation (some
    [Selection.field none (some "x") none,
     Selection.field none (some "hello") none])]⟩

/-- Scenario F's request body, the JSON text `{"query": "{ hello }"}`
(braces written as escapes). -/
def scenarioFBody : String := "\x7b\"query\": \"\x7b hello \x7d\"\x7d"

/-- The behavior of `json.Unmarshal` on Scenario F's body: it succeeds and
the `query` member is the string `{ hello }`; other inputs are not JSON
objects here. -/
def scenarioFUnmarshal : String → Option (List (String × JsonValue)) :=
  fun body =>
    if body = scenarioFBody
    then some [("query", JsonValue.str "\x7b hello \x7d")]
    else none

/-- The behavior of `parser.Parse` on the unwrapped Scenario F query text:
`{ hello }` parses to `docHello`; the raw JSON body does not parse. -/
def scenarioFParse : String → Option Document :=
  fun q => if q = "\x7b hello \x7d" then some docHello else none

/-! ### Two's-complement (Go `int`) complexity

`calculateSelectionSetComplexity` above is the mathematical value of the Go
computation; Go's `int` is a 64-bit two's-complement integer whose `+` and
`*` wrap on overflow.  The following mirror the Go source with the wrap
applied at every arithmetic step, which matters for the complexity analyzer:
its multiplier doubles with nesting, so a 63-level document already reaches
the top of the `int64` range. -/

/-- Reduction of an integer into the two's-complement `int64` range
`[-2^63, 2^63)`: the value of a wrapped Go `int` computation. -/
def wrapInt64 (x : Int) : Int :=
  (x + 9223372036854775808) % 18446744073709551616 - 9223372036854775808

/-- The loop of Go `calculateSelectionSetComplexity` with wrapping `int`
arithmetic: `complexity` is the accumulator, every `+=` and the `multiplier*2`
wrap.  The nested call is the function itself, i.e. this loop started at 0. -/
def selectionSetComplexityLoop : List Selection → Int → Int → Int
  | [], _, complexity => complexity
  | Selection.field _ _ (some ss) :: rest, multiplier, complexity =>
      selectionSetComplexityLoop rest multiplier
        (wrapInt64 (wrapInt64 (complexity + multiplier)
          + selectionSetComplexityLoop ss (wrapInt64 (multiplier * 2)) 0))
  | Selection.field _ _ none :: rest, multiplier, complexity =>
      selectionSetComplexityLoop rest multiplier (wrapInt64 (complexity + multiplier))
  | Selection.inlineFragment (some ss) :: rest, multiplier, complexity =>
      selectionSetComplexityLoop rest multiplier
        (wrapInt64 (complexity + selectionSetComplexityLoop ss multiplier 0))
  | Selection.inlineFragment none :: rest, multiplier, complexity =>
      selectionSetComplexityLoop rest multiplier complexity
  | Selection.fragmentSpread _ :: rest, multiplier, complexity =>
      selectionSetComplexityLoop rest multiplier (wrapInt64 (complexity + multiplier))

/-- Go `calculateSelectionSetComplexity` with wrapping `int` arithmetic:
the loop started at `complexity := 0`. -/
def calculateSelectionSetComplexityInt64 (ss : List Selection) (multiplier : Int) : Int :=
  selectionSetComplexityLoop ss multiplier 0

/-- Go `calculateQueryComplexity` on a single definition node with wrapping
`int` arithmetic (the single `complexity += …` from 0 cannot wrap). -/
def calculateDefinitionComplexityInt64 : Definition → Int → Int
  | Definition.operation (some ss), multiplier =>
      calculateSelectionSetComplexityInt64 ss multiplier
  | Definition.operation none, _ => 0
  | Definition.fragment (some ss), multiplier =>
      calculateSelectionSetComplexityInt64 ss multiplier
  | Definition.fragment none, _ => 0
  | Definition.otherDef, _ => 0

/-- The `ast.Document` loop of Go `calculateQueryComplexity` with wrapping
`int` arithmetic. -/
def definitionsComplexityLoop : List Definition → Int → Int → Int
  | [], _, complexity => complexity
  | d :: rest, multiplier, complexity =>
      definitionsComplexityLoop rest multiplier
        (wrapInt64 (complexity + calculateDefinitionComplexityInt64 d multiplier))

/-- Go `calculateQueryComplexity` on an `ast.Document` with wrapping `int`
arithmetic. -/
def calculateQueryComplexityInt64 (doc : Document) (multiplier : Int) : Int :=
  definitionsComplexityLoop doc.definitions multiplier 0

/-- A chain of `n+1` nested fields named `f` (index 0 is the single leaf). -/
def chainSS : Nat → List Selection
  | 0 => [Selection.field none (some "f") none]
  | n + 1 => [Selection.field none (some "f") (some (chainSS n))]

/-- `chainSS n` with one extra plain sibling leaf field at the innermost
selection set. -/
def chainPlusSS : Nat → List Selection
  | 0 => Selection.field none (some "x") none :: chainSS 0
  | n + 1 => [Selection.field none (some "f") (some (chainPlusSS n))]

/-- A realizable document of 63 nested fields: its mathematical complexity
at base weight 1 is exactly the largest `int64`. -/
def deepChainDoc : Document :=
  ⟨[Definition.operation (some (chainSS 62))]⟩

/-- `deepChainDoc` with one sibling leaf added at the innermost level. -/
def deepChainPlusDoc : Document :=
  ⟨[Definition.operation (some (chainPlusSS 62))]⟩

/-! ### Helper lemmas: depth -/

/-- The depth of a selection set is at least the depth it is evaluated at
(the Go fold starts at `maxDepth := currentDepth`). -/
theorem le_calculateSelectionSetDepth :
    ∀ (ss : List Selection) (d : Int), d ≤ calculateSelectionSetDepth ss d
  | [], d => by simp [calculateSelectionSetDepth]
  | Selection.field _ _ (some _) :: rest, d => by
      have h := le_calculateSelectionSetDepth rest d
      simp only [calculateSelectionSetDepth]
      exact le_trans h (le_max_right _ _)
  | Selection.field _ _ none :: rest, d => by
      have h := le_calculateSelectionSetDepth rest d
      simp only [calculateSelectionSetDepth]
      exact le_trans h (le_max_right _ _)
  | Selection.inlineFragment (some _) :: rest, d => by
      have h := le_calculateSelectionSetDepth rest d
      simp only [calculateSelectionSetDepth]
      exact le_trans h (le_max_right _ _)
  | Selection.inlineFragment none :: rest, d => by
      have h := le_calculateSelectionSetDepth rest d
      simp only [calculateSelectionSetDepth]
      exact le_trans h (le_max_right _ _)
  | Selection.fragmentSpread _ :: rest, d => by
      have h := le_calculateSelectionSetDepth rest d
      simp only [calculateSelectionSetDepth]
      exact le_trans h (le_max_right _ _)

/-- At nonnegative depths the source depth computation agrees with the
spec's description. -/
theorem calculateSelectionSetDepth_eq_spec :
    ∀ (ss : List Selection) (d : Int), 0 ≤ d →
      calculateSelectionSetDepth ss d = specSelectionSetDepth ss d
  | [], _, _ => by simp [calculateSelectionSetDepth, specSelectionSetDepth]
  | Selection.field _ _ (some ss) :: rest, d, hd => by
      have h1 := calculateSelectionSetDepth_eq_spec ss (d + 1) (by omega)
      have h2 := calculateSelectionSetDepth_eq_spec rest d hd
      simp only [calculateSelectionSetDepth, specSelectionSetDepth, h1, h2]
  | Selection.field _ _ none :: rest, d, hd => by
      have h2 := calculateSelectionSetDepth_eq_spec rest d hd
      simp only [calculateSelectionSetDepth, specSelectionSetDepth, h2]
  | Selection.inlineFragment (some ss) :: rest, d, hd => by
      have h1 := calculateSelectionSetDepth_eq_spec ss d hd
      have h2 := calculateSelectionSetDepth_eq_spec rest d hd
      simp only [calculateSelectionSetDepth, specSelectionSetDepth, h1, h2]
  | Selection.inlineFragment none :: rest, d, hd => by
      have h2 := calculateSelectionSetDepth_eq_spec rest d hd
      have hle : (0 : Int) ≤ calculateSelectionSetDepth rest d :=
        le_trans hd (le_calculateSelectionSetDepth rest d)
      simp only [calculateSelectionSetDepth, specSelectionSetDepth]
      rw [max_eq_right hle, h2]
  | Selection.fragmentSpread _ :: rest, d, hd => by
      have h2 := calculateSelectionSetDepth_eq_spec rest d hd
      simp only [calculateSelectionSetDepth, specSelectionSetDepth, h2]

/-- A single definition's depth at the document's starting depth 0 agrees
with the spec's description. -/
theorem calculateDefinitionDepth_eq_spec (d : Definition) :
    calculateDefinitionDepth d 0 = specDefinitionDepth d := by
  cases d with
  | operation oss =>
      cases oss with
      | some ss =>
          have h := calculateSelectionSetDepth_eq_spec ss 0 (le_refl 0)
          have hle := le_calculateSelectionSetDepth ss 0
          simp only [calculateDefinitionDepth, specDefinitionDepth]
          rw [max_eq_right hle, h]
      | none => rfl
  | fragment oss =>
      cases oss with
      | some ss =>
          have h := calculateSelectionSetDepth_eq_spec ss 0 (le_refl 0)
          have hle := le_calculateSelectionSetDepth ss 0
          simp only [calculateDefinitionDepth, specDefinitionDepth]
          rw [max_eq_right hle, h]
      | none => rfl
  | otherDef => rfl

/-- Document-level agreement of depth with the spec, at starting depth 0. -/
theorem calculateDefinitionsDepth_eq_spec :
    ∀ (defs : List Definition),
      calculateDefinitionsDepth defs 0 =
        defs.foldr (fun d acc => max (specDefinitionDepth d) acc) 0
  | [] => rfl
  | d :: rest => by
      simp only [calculateDefinitionsDepth, List.foldr_cons,
        calculateDefinitionDepth_eq_spec d, calculateDefinitionsDepth_eq_spec rest]

/-! ### Helper lemmas: complexity -/

/-- The source complexity computation agrees with the spec's description
(the only syntactic difference is `multiplier*2` vs `2*m`). -/
theorem calculateSelectionSetComplexity_eq_spec :
    ∀ (ss : List Selection) (m : Int),
      calculateSelectionSetComplexity ss m = specSelectionSetComplexity ss m
  | [], _ => by
      simp [calculateSelectionSetComplexity, specSelectionSetComplexity]
  | Selection.field _ _ (some ss) :: rest, m => by
      have h1 := calculateSelectionSetComplexity_eq_spec ss (m * 2)
      have h2 := calculateSelectionSetComplexity_eq_spec rest m
      simp only [calculateSelectionSetComplexity, specSelectionSetComplexity]
      rw [h1, h2, Int.mul_comm m 2]
  | Selection.field _ _ none :: rest, m => by
      have h2 := calculateSelectionSetComplexity_eq_spec rest m
      simp only [calculateSelectionSetComplexity, specSelectionSetComplexity, h2]
  | Selection.inlineFragment (some ss) :: rest, m => by
      have h1 := calculateSelectionSetComplexity_eq_spec ss m
      have h2 := calculateSelectionSetComplexity_eq_spec rest m
      simp only [calculateSelectionSetComplexity, specSelectionSetComplexity, h1, h2]
  | Selection.inlineFragment none :: rest, m => by
      have h2 := calculateSelectionSetComplexity_eq_spec rest m
      simp only [calculateSelectionSetComplexity, specSelectionSetComplexity, h2]
  | Selection.fragmentSpread _ :: rest, m => by
      have h2 := calculateSelectionSetComplexity_eq_spec rest m
      simp only [calculateSelectionSetComplexity, specSelectionSetComplexity, h2]

/-- A definition's complexity agrees with the spec's description. -/
theorem calculateDefinitionComplexity_eq_spec (d : Definition) (m : Int) :
    calculateDefinitionComplexity d m = specDefinitionComplexity d m := by
  cases d with
  | operation oss =>
      cases oss with
      | some ss =>
          simpa [calculateDefinitionComplexity, specDefinitionComplexity] using
            calculateSelectionSetComplexity_eq_spec ss m
      | none => simp [calculateDefinitionComplexity, specDefinitionComplexity]
  | fragment oss =>
      cases oss with
      | some ss =>
          simpa [calculateDefinitionComplexity, specDefinitionComplexity] using
            calculateSelectionSetComplexity_eq_spec ss m
      | none => simp [calculateDefinitionComplexity, specDefinitionComplexity]
  | otherDef => simp [calculateDefinitionComplexity, specDefinitionComplexity]

/-- Document-level agreement of complexity with the spec's sum. -/
theorem calculateDefinitionsComplexity_eq_spec :
    ∀ (defs : List Definition) (m : Int),
      calculateDefinitionsComplexity defs m =
        (defs.map (fun d => specDefinitionComplexity d m)).sum
  | [], _ => by simp [calculateDefinitionsComplexity]
  | d :: rest, m => by
      simp only [calculateDefinitionsComplexity, List.map_cons, List.sum_cons,
        calculateDefinitionComplexity_eq_spec d m,
        calculateDefinitionsComplexity_eq_spec rest m]

/-- Complexity of a selection set is linear in the multiplier. -/
theorem calculateSelectionSetComplexity_hom :
    ∀ (ss : List Selection) (m : Int),
      calculateSelectionSetComplexity ss m = m * calculateSelectionSetComplexity ss 1
  | [], m => by simp [calculateSelectionSetComplexity]
  | Selection.field _ _ (some ss) :: rest, m => by
      have h1 := calculateSelectionSetComplexity_hom ss (m * 2)
      have h2 := calculateSelectionSetComplexity_hom ss 2
      have h3 := calculateSelectionSetComplexity_hom rest m
      simp only [calculateSelectionSetComplexity]
      rw [h1, h3, show (1 : Int) * 2 = 2 by norm_num, h2]
      ring
  | Selection.field _ _ none :: rest, m => by
      have h3 := calculateSelectionSetComplexity_hom rest m
      simp only [calculateSelectionSetComplexity]
      rw [h3]; ring
  | Selection.inlineFragment (some ss) :: rest, m => by
      have h1 := calculateSelectionSetComplexity_hom ss m
      have h3 := calculateSelectionSetComplexity_hom rest m
      simp only [calculateSelectionSetComplexity]
      rw [h1, h3]; ring
  | Selection.inlineFragment none :: rest, m => by
      have h3 := calculateSelectionSetComplexity_hom rest m
      simp only [calculateSelectionSetComplexity]
      rw [h3]
  | Selection.fragmentSpread _ :: rest, m => by
      have h3 := calculateSelectionSetComplexity_hom rest m
      simp only [calculateSelectionSetComplexity]
      rw [h3]; ring

/-- Complexity of a definition is linear in the multiplier. -/
theorem calculateDefinitionComplexity_hom (d : Definition) (m : Int) :
    calculateDefinitionComplexity d m = m * calculateDefinitionComplexity d 1 := by
  cases d with
  | operation oss =>
      cases oss with
      | some ss =>
          simpa [calculateDefinitionComplexity] using
            calculateSelectionSetComplexity_hom ss m
      | none => simp [calculateDefinitionComplexity]
  | fragment oss =>
      cases oss with
      | some ss =>
          simpa [calculateDefinitionComplexity] using
            calculateSelectionSetComplexity_hom ss m
      | none => simp [calculateDefinitionComplexity]
  | otherDef => simp [calculateDefinitionComplexity]

/-- Complexity of a definition list is linear in the multiplier. -/
theorem calculateDefinitionsComplexity_hom :
    ∀ (defs : List Definition) (m : Int),
      calculateDefinitionsComplexity defs m
        = m * calculateDefinitionsComplexity defs 1
  | [], m => by simp [calculateDefinitionsComplexity]
  | d :: rest, m => by
      simp only [calculateDefinitionsComplexity]
      rw [calculateDefinitionComplexity_hom d m,
        calculateDefinitionsComplexity_hom rest m]
      ring

/-! ### Helper lemmas: aliases -/

/-- The source alias count of a selection set counts exactly the reachable
field nodes whose alias slot is present and non-empty. -/
theorem countSelectionSetAliases_eq_countP :
    ∀ ss : List Selection,
      countSelectionSetAliases ss
        = ((reachableFieldAliases ss).countP aliasPresent : Int)
  | [] => by simp [countSelectionSetAliases, reachableFieldAliases]
  | Selection.field (some a) nm (some sub) :: rest => by
      have h1 := countSelectionSetAliases_eq_countP sub
      have h2 := countSelectionSetAliases_eq_countP rest
      by_cases ha : a = "" <;>
        simp [countSelectionSetAliases, reachableFieldAliases, List.countP_cons,
          List.countP_append, aliasPresent, ha, h1, h2] <;> ring
  | Selection.field (some a) nm none :: rest => by
      have h2 := countSelectionSetAliases_eq_countP rest
      by_cases ha : a = "" <;>
        simp [countSelectionSetAliases, reachableFieldAliases, List.countP_cons,
          aliasPresent, ha, h2] <;> ring
  | Selection.field none nm (some sub) :: rest => by
      have h1 := countSelectionSetAliases_eq_countP sub
      have h2 := countSelectionSetAliases_eq_countP rest
      simp [countSelectionSetAliases, reachableFieldAliases, List.countP_cons,
        List.countP_append, aliasPresent, h1, h2]
  | Selection.field none nm none :: rest => by
      have h2 := countSelectionSetAliases_eq_countP rest
      simp [countSelectionSetAliases, reachableFieldAliases, List.countP_cons,
        aliasPresent, h2]
  | Selection.inlineFragment (some sub) :: rest => by
      have h1 := countSelectionSetAliases_eq_countP sub
      have h2 := countSelectionSetAliases_eq_countP rest
      simp [countSelectionSetAliases, reachableFieldAliases, List.countP_append,
        h1, h2]
  | Selection.inlineFragment none :: rest => by
      have h2 := countSelectionSetAliases_eq_countP rest
      simp [countSelectionSetAliases, reachableFieldAliases, h2]
  | Selection.fragmentSpread _ :: rest => by
      have h2 := countSelectionSetAliases_eq_countP rest
      simp [countSelectionSetAliases, reachableFieldAliases, h2]

/-- A definition's alias count counts its reachable aliased fields. -/
theorem countDefinitionAliases_eq_countP (d : Definition) :
    countDefinitionAliases d = ((definitionFieldAliases d).countP aliasPresent : Int) := by
  cases d with
  | operation oss =>
      cases oss with
      | some ss =>
          simpa [countDefinitionAliases, definitionFieldAliases] using
            countSelectionSetAliases_eq_countP ss
      | none => simp [countDefinitionAliases, definitionFieldAliases]
  | fragment oss =>
      cases oss with
      | some ss =>
          simpa [countDefinitionAliases, definitionFieldAliases] using
            countSelectionSetAliases_eq_countP ss
      | none => simp [countDefinitionAliases, definitionFieldAliases]
  | otherDef => simp [countDefinitionAliases, definitionFieldAliases]

/-- Document-level agreement of the alias count with the reachable-field
count. -/
theorem countDefinitionsAliases_eq_countP :
    ∀ defs : List Definition,
      countDefinitionsAliases defs
        = ((defs.foldr (fun d acc => definitionFieldAliases d ++ acc) []).countP
            aliasPresent : Int)
  | [] => by simp [countDefinitionsAliases]
  | d :: rest => by
      simp only [countDefinitionsAliases, List.foldr_cons, List.countP_append,
        countDefinitionAliases_eq_countP d, countDefinitionsAliases_eq_countP rest]
      push_cast; ring

/-! ### Helper lemmas: introspection -/

/-- The source introspection search finds exactly the reachable field nodes
named `__schema` or `__type`. -/
theorem hasIntrospectionInSelectionSet_iff :
    ∀ ss : List Selection,
      hasIntrospectionInSelectionSet ss = true ↔
        some "__schema" ∈ reachableFieldNames ss
          ∨ some "__type" ∈ reachableFieldNames ss
  | [] => by simp [hasIntrospectionInSelectionSet, reachableFieldNames]
  | Selection.field av (some nm) (some sub) :: rest => by
      have h1 := hasIntrospectionInSelectionSet_iff sub
      have h2 := hasIntrospectionInSelectionSet_iff rest
      simp [hasIntrospectionInSelectionSet, reachableFieldNames, h1, h2,
        List.mem_append, List.mem_cons]
      tauto
  | Selection.field av (some nm) none :: rest => by
      have h2 := hasIntrospectionInSelectionSet_iff rest
      simp [hasIntrospectionInSelectionSet, reachableFieldNames, h2,
        List.mem_cons]
      tauto
  | Selection.field av none (some sub) :: rest => by
      have h1 := hasIntrospectionInSelectionSet_iff sub
      have h2 := hasIntrospectionInSelectionSet_iff rest
      simp [hasIntrospectionInSelectionSet, reachableFieldNames, h1, h2,
        List.mem_append, List.mem_cons]
      tauto
  | Selection.field av none none :: rest => by
      have h2 := hasIntrospectionInSelectionSet_iff rest
      simp [hasIntrospectionInSelectionSet, reachableFieldNames, h2, List.mem_cons]
  | Selection.inlineFragment (some sub) :: rest => by
      have h1 := hasIntrospectionInSelectionSet_iff sub
      have h2 := hasIntrospectionInSelectionSet_iff rest
      simp [hasIntrospectionInSelectionSet, reachableFieldNames, h1, h2,
        List.mem_append]
      tauto
  | Selection.inlineFragment none :: rest => by
      have h2 := hasIntrospectionInSelectionSet_iff rest
      simp [hasIntrospectionInSelectionSet, reachableFieldNames, h2]
  | Selection.fragmentSpread _ :: rest => by
      have h2 := hasIntrospectionInSelectionSet_iff rest
      simp [hasIntrospectionInSelectionSet, reachableFieldNames, h2]

/-- A definition has introspection exactly when a reachable field of it is
named `__schema` or `__type`. -/
theorem hasIntrospectionInDefinition_iff (d : Definition) :
    hasIntrospectionInDefinition d = true ↔
      some "__schema" ∈ definitionFieldNames d
        ∨ some "__type" ∈ definitionFieldNames d := by
  cases d with
  | operation oss =>
      cases oss with
      | some ss =>
          simpa [hasIntrospectionInDefinition, definitionFieldNames] using
            hasIntrospectionInSelectionSet_iff ss
      | none => simp [hasIntrospectionInDefinition, definitionFieldNames]
  | fragment oss =>
      cases oss with
      | some ss =>
          simpa [hasIntrospectionInDefinition, definitionFieldNames] using
            hasIntrospectionInSelectionSet_iff ss
      | none => simp [hasIntrospectionInDefinition, definitionFieldNames]
  | otherDef => simp [hasIntrospectionInDefinition, definitionFieldNames]

/-- Document-level introspection characterization over the definition
list. -/
theorem hasIntrospection_defs_iff :
    ∀ defs : List Definition,
      defs.any hasIntrospectionInDefinition = true ↔
        some "__schema" ∈ defs.foldr (fun d acc => definitionFieldNames d ++ acc) []
          ∨ some "__type" ∈ defs.foldr (fun d acc => definitionFieldNames d ++ acc) []
  | [] => by simp
  | d :: rest => by
      have h1 := hasIntrospectionInDefinition_iff d
      have h2 := hasIntrospection_defs_iff rest
      simp [List.any_cons, List.mem_append, h1, h2]
      tauto

/-! ### Helper lemmas: adding a sibling leaf field -/

/-- Inserting one leaf field with alias slot `a` changes a selection set's
alias count by exactly the contribution of `a`. -/
theorem addLeafSS_countAliases {a : Option String} {ss ss' : List Selection}
    (h : AddLeafSS a ss ss') :
    countSelectionSetAliases ss' = countSelectionSetAliases ss + aliasContribution a := by
  induction h with
  | insert nm ss =>
      cases a with
      | some s =>
          by_cases hs : s = "" <;>
            simp [countSelectionSetAliases, aliasContribution, aliasPresent, hs] <;>
            ring
      | none => simp [countSelectionSetAliases, aliasContribution, aliasPresent]
  | skip s ss ss' h ih =>
      cases s with
      | field av nm oss =>
          cases av <;> cases oss <;>
            simp [countSelectionSetAliases, ih] <;> ring
      | inlineFragment oss =>
          cases oss <;> simp [countSelectionSetAliases, ih] <;> ring
      | fragmentSpread nm => simp [countSelectionSetAliases, ih]
  | inField av nm sub sub' rest h ih =>
      cases av <;> simp [countSelectionSetAliases, ih] <;> ring
  | inInline sub sub' rest h ih =>
      simp [countSelectionSetAliases, ih]; ring

/-- Inserting one leaf field never decreases a selection set's complexity
at a nonnegative multiplier. -/
theorem addLeafSS_complexity_le {a : Option String} {ss ss' : List Selection}
    (h : AddLeafSS a ss ss') :
    ∀ m : Int, 0 ≤ m →
      calculateSelectionSetComplexity ss m ≤ calculateSelectionSetComplexity ss' m := by
  induction h with
  | insert nm ss =>
      intro m hm
      simp only [calculateSelectionSetComplexity]
      omega
  | skip s ss ss' h ih =>
      intro m hm
      cases s with
      | field av nm oss =>
          cases oss with
          | some sub =>
              simp only [calculateSelectionSetComplexity]
              have := ih m hm
              omega
          | none =>
              simp only [calculateSelectionSetComplexity]
              have := ih m hm
              omega
      | inlineFragment oss =>
          cases oss with
          | some sub =>
              simp only [calculateSelectionSetComplexity]
              have := ih m hm
              omega
          | none =>
              simp only [calculateSelectionSetComplexity]
              exact ih m hm
      | fragmentSpread nm =>
          simp only [calculateSelectionSetComplexity]
          have := ih m hm
          omega
  | inField av nm sub sub' rest h ih =>
      intro m hm
      simp only [calculateSelectionSetComplexity]
      have := ih (m * 2) (by omega)
      omega
  | inInline sub sub' rest h ih =>
      intro m hm
      simp only [calculateSelectionSetComplexity]
      have := ih m hm
      omega

/-- Inserting one leaf field never decreases a selection set's depth. -/
theorem addLeafSS_depth_le {a : Option String} {ss ss' : List Selection}
    (h : AddLeafSS a ss ss') :
    ∀ d : Int, calculateSelectionSetDepth ss d ≤ calculateSelectionSetDepth ss' d := by
  induction h with
  | insert nm ss =>
      intro d
      simp only [calculateSelectionSetDepth]
      exact le_max_right _ _
  | skip s ss ss' h ih =>
      intro d
      cases s with
      | field av nm oss =>
          cases oss <;>
            (simp only [calculateSelectionSetDepth]
             exact max_le_max (le_refl _) (ih d))
      | inlineFragment oss =>
          cases oss <;>
            (simp only [calculateSelectionSetDepth]
             exact max_le_max (le_refl _) (ih d))
      | fragmentSpread nm =>
          simp only [calculateSelectionSetDepth]
          exact max_le_max (le_refl _) (ih d)
  | inField av nm sub sub' rest h ih =>
      intro d
      simp only [calculateSelectionSetDepth]
      exact max_le_max (ih (d + 1)) (le_refl _)
  | inInline sub sub' rest h ih =>
      intro d
      simp only [calculateSelectionSetDepth]
      exact max_le_max (ih d) (le_refl _)

/-- Document level: the alias count changes by exactly the added leaf's
contribution. -/
theorem addLeafDoc_countAliases {a : Option String} {doc doc' : Document}
    (h : AddLeafDoc a doc doc') :
    countAliases doc' = countAliases doc + aliasContribution a := by
  induction h with
  | inOperation ss ss' rest h =>
      simp only [countAliases, countDefinitionsAliases, countDefinitionAliases,
        addLeafSS_countAliases h]
      ring
  | inFragment ss ss' rest h =>
      simp only [countAliases, countDefinitionsAliases, countDefinitionAliases,
        addLeafSS_countAliases h]
      ring
  | skip d defs defs' h ih =>
      simp only [countAliases, countDefinitionsAliases] at ih ⊢
      omega

/-- Document level: complexity never decreases at a nonnegative
multiplier. -/
theorem addLeafDoc_complexity_le {a : Option String} {doc doc' : Document}
    (h : AddLeafDoc a doc doc') :
    ∀ m : Int, 0 ≤ m →
      calculateQueryComplexity doc m ≤ calculateQueryComplexity doc' m := by
  induction h with
  | inOperation ss ss' rest h =>
      intro m hm
      simp only [calculateQueryComplexity, calculateDefinitionsComplexity,
        calculateDefinitionComplexity]
      have := addLeafSS_complexity_le h m hm
      omega
  | inFragment ss ss' rest h =>
      intro m hm
      simp only [calculateQueryComplexity, calculateDefinitionsComplexity,
        calculateDefinitionComplexity]
      have := addLeafSS_complexity_le h m hm
      omega
  | skip d defs defs' h ih =>
      intro m hm
      simp only [calculateQueryComplexity, calculateDefinitionsComplexity] at ih ⊢
      have := ih m hm
      omega

/-- Document level: depth never decreases. -/
theorem addLeafDoc_depth_le {a : Option String} {doc doc' : Document}
    (h : AddLeafDoc a doc doc') :
    ∀ d : Int, calculateQueryDepth doc d ≤ calculateQueryDepth doc' d := by
  induction h with
  | inOperation ss ss' rest h =>
      intro d
      simp only [calculateQueryDepth, calculateDefinitionsDepth,
        calculateDefinitionDepth]
      exact max_le_max (max_le_max (le_refl _) (addLeafSS_depth_le h d)) (le_refl _)
  | inFragment ss ss' rest h =>
      intro d
      simp only [calculateQueryDepth, calculateDefinitionsDepth,
        calculateDefinitionDepth]
      exact max_le_max (max_le_max (le_refl _) (addLeafSS_depth_le h d)) (le_refl _)
  | skip dd defs defs' h ih =>
      intro d
      simp only [calculateQueryDepth, calculateDefinitionsDepth] at ih ⊢
      exact max_le_max (le_refl _) (ih d)

/-! ### Helper lemma: the check chain -/

/-- Characterization of the post-parse check chain: allowed exactly when all
four checks pass, and each rejection reason is produced exactly when its
check is the first to fail. -/
theorem validateParsedDocument_spec (doc : Document) :
    (validateParsedDocument doc = ValidationResult.allowed ↔
      hasIntrospection doc = false ∧ calculateQueryDepth doc 0 ≤ 10 ∧
      countAliases doc ≤ 4 ∧ calculateQueryComplexity doc 1 ≤ 200) ∧
    (hasIntrospection doc = true →
      validateParsedDocument doc = ValidationResult.introspectionDisabled) ∧
    (hasIntrospection doc = false → 10 < calculateQueryDepth doc 0 →
      validateParsedDocument doc
        = ValidationResult.depthExceeded 10 (calculateQueryDepth doc 0)) ∧
    (hasIntrospection doc = false → calculateQueryDepth doc 0 ≤ 10 →
      4 < countAliases doc →
      validateParsedDocument doc
        = ValidationResult.aliasLimitExceeded 4 (countAliases doc)) ∧
    (hasIntrospection doc = false → calculateQueryDepth doc 0 ≤ 10 →
      countAliases doc ≤ 4 → 200 < calculateQueryComplexity doc 1 →
      validateParsedDocument doc
        = ValidationResult.complexityExceeded 200 (calculateQueryComplexity doc 1)) := by
  simp only [validateParsedDocument]
  split_ifs with h1 h2 h3 h4 <;>
    refine ⟨?_, ?_, ?_, ?_, ?_⟩ <;>
      simp_all <;> omega

/-! ### Helper lemmas: wrapping complexity -/

/-- `wrapInt64` lands in the `int64` range and differs from its argument by
a multiple of 2^64. -/
theorem wrapInt64_spec (x : Int) :
    -9223372036854775808 ≤ wrapInt64 x ∧ wrapInt64 x < 9223372036854775808 ∧
      (18446744073709551616 : Int) ∣ (x - wrapInt64 x) := by
  unfold wrapInt64
  omega

/-- `wrapInt64` is the identity on the `int64` range. -/
theorem wrapInt64_eq_self {x : Int} (h1 : -9223372036854775808 ≤ x)
    (h2 : x < 9223372036854775808) : wrapInt64 x = x := by
  unfold wrapInt64
  omega

/-- The mathematical complexity of a selection set is nonnegative at a
nonnegative multiplier. -/
theorem calculateSelectionSetComplexity_nonneg :
    ∀ (ss : List Selection) (m : Int), 0 ≤ m →
      0 ≤ calculateSelectionSetComplexity ss m
  | [], m, _ => by simp [calculateSelectionSetComplexity]
  | Selection.field _ _ (some sub) :: rest, m, hm => by
      have h1 := calculateSelectionSetComplexity_nonneg sub (m * 2) (by omega)
      have h2 := calculateSelectionSetComplexity_nonneg rest m hm
      simp only [calculateSelectionSetComplexity]
      omega
  | Selection.field _ _ none :: rest, m, hm => by
      have h2 := calculateSelectionSetComplexity_nonneg rest m hm
      simp only [calculateSelectionSetComplexity]
      omega
  | Selection.inlineFragment (some sub) :: rest, m, hm => by
      have h1 := calculateSelectionSetComplexity_nonneg sub m hm
      have h2 := calculateSelectionSetComplexity_nonneg rest m hm
      simp only [calculateSelectionSetComplexity]
      omega
  | Selection.inlineFragment none :: rest, m, hm => by
      have h2 := calculateSelectionSetComplexity_nonneg rest m hm
      simp only [calculateSelectionSetComplexity]
      omega
  | Selection.fragmentSpread _ :: rest, m, hm => by
      have h2 := calculateSelectionSetComplexity_nonneg rest m hm
      simp only [calculateSelectionSetComplexity]
      omega

/-- Nonnegativity at the definition level. -/
theorem calculateDefinitionComplexity_nonneg (d : Definition) (m : Int)
    (hm : 0 ≤ m) : 0 ≤ calculateDefinitionComplexity d m := by
  cases d with
  | operation oss =>
      cases oss with
      | some ss =>
          simpa [calculateDefinitionComplexity] using
            calculateSelectionSetComplexity_nonneg ss m hm
      | none => simp [calculateDefinitionComplexity]
  | fragment oss =>
      cases oss with
      | some ss =>
          simpa [calculateDefinitionComplexity] using
            calculateSelectionSetComplexity_nonneg ss m hm
      | none => simp [calculateDefinitionComplexity]
  | otherDef => simp [calculateDefinitionComplexity]

/-- Nonnegativity at the document level. -/
theorem calculateQueryComplexity_nonneg :
    ∀ (defs : List Definition) (m : Int), 0 ≤ m →
      0 ≤ calculateDefinitionsComplexity defs m
  | [], _, _ => by simp [calculateDefinitionsComplexity]
  | d :: rest, m, hm => by
      have h1 := calculateDefinitionComplexity_nonneg d m hm
      have h2 := calculateQueryComplexity_nonneg rest m hm
      simp only [calculateDefinitionsComplexity]
      omega

/-- The mathematical complexity is congruent mod 2^64 in its multiplier
argument (a consequence of homogeneity). -/
theorem calculateSelectionSetComplexity_multiplier_congr
    (ss : List Selection) {m m' : Int}
    (h : (18446744073709551616 : Int) ∣ (m - m')) :
    (18446744073709551616 : Int) ∣
      (calculateSelectionSetComplexity ss m - calculateSelectionSetComplexity ss m') := by
  rw [calculateSelectionSetComplexity_hom ss m,
    calculateSelectionSetComplexity_hom ss m', ← sub_mul]
  exact Dvd.dvd.mul_right h _

/-- The wrapped selection-set loop is congruent mod 2^64 to the accumulator
plus the mathematical complexity. -/
theorem selectionSetComplexityLoop_modEq :
    ∀ (ss : List Selection) (m c : Int),
      (18446744073709551616 : Int) ∣
        (selectionSetComplexityLoop ss m c
          - (c + calculateSelectionSetComplexity ss m))
  | [], m, c => by
      simp [selectionSetComplexityLoop, calculateSelectionSetComplexity]
  | Selection.field _ _ (some sub) :: rest, m, c => by
      have hsub := selectionSetComplexityLoop_modEq sub (wrapInt64 (m * 2)) 0
      have hrest := selectionSetComplexityLoop_modEq rest m
        (wrapInt64 (wrapInt64 (c + m)
          + selectionSetComplexityLoop sub (wrapInt64 (m * 2)) 0))
      have hm2 : (18446744073709551616 : Int) ∣ (wrapInt64 (m * 2) - m * 2) := by
        have := (wrapInt64_spec (m * 2)).2.2
        omega
      have hcong := calculateSelectionSetComplexity_multiplier_congr sub hm2
      have hw1 := (wrapInt64_spec (c + m)).2.2
      have hw2 := (wrapInt64_spec (wrapInt64 (c + m)
        + selectionSetComplexityLoop sub (wrapInt64 (m * 2)) 0)).2.2
      simp only [selectionSetComplexityLoop, calculateSelectionSetComplexity]
      omega
  | Selection.field _ _ none :: rest, m, c => by
      have hrest := selectionSetComplexityLoop_modEq rest m (wrapInt64 (c + m))
      have hw1 := (wrapInt64_spec (c + m)).2.2
      simp only [selectionSetComplexityLoop, calculateSelectionSetComplexity]
      omega
  | Selection.inlineFragment (some sub) :: rest, m, c => by
      have hsub := selectionSetComplexityLoop_modEq sub m 0
      have hrest := selectionSetComplexityLoop_modEq rest m
        (wrapInt64 (c + selectionSetComplexityLoop sub m 0))
      have hw1 := (wrapInt64_spec (c + selectionSetComplexityLoop sub m 0)).2.2
      simp only [selectionSetComplexityLoop, calculateSelectionSetComplexity]
      omega
  | Selection.inlineFragment none :: rest, m, c => by
      have hrest := selectionSetComplexityLoop_modEq rest m c
      simp only [selectionSetComplexityLoop, calculateSelectionSetComplexity]
      omega
  | Selection.fragmentSpread _ :: rest, m, c => by
      have hrest := selectionSetComplexityLoop_modEq rest m (wrapInt64 (c + m))
      have hw1 := (wrapInt64_spec (c + m)).2.2
      simp only [selectionSetComplexityLoop, calculateSelectionSetComplexity]
      omega

/-- The wrapped selection-set loop stays in the `int64` range when its
accumulator starts there. -/
theorem selectionSetComplexityLoop_range :
    ∀ (ss : List Selection) (m c : Int),
      -9223372036854775808 ≤ c → c < 9223372036854775808 →
      -9223372036854775808 ≤ selectionSetComplexityLoop ss m c ∧
        selectionSetComplexityLoop ss m c < 9223372036854775808
  | [], m, c, h1, h2 => by
      simpa [selectionSetComplexityLoop] using And.intro h1 h2
  | Selection.field _ _ (some sub) :: rest, m, c, _, _ => by
      have hw := wrapInt64_spec (wrapInt64 (c + m)
        + selectionSetComplexityLoop sub (wrapInt64 (m * 2)) 0)
      simpa [selectionSetComplexityLoop] using
        selectionSetComplexityLoop_range rest m _ hw.1 hw.2.1
  | Selection.field _ _ none :: rest, m, c, _, _ => by
      have hw := wrapInt64_spec (c + m)
      simpa [selectionSetComplexityLoop] using
        selectionSetComplexityLoop_range rest m _ hw.1 hw.2.1
  | Selection.inlineFragment (some sub) :: rest, m, c, _, _ => by
      have hw := wrapInt64_spec (c + selectionSetComplexityLoop sub m 0)
      simpa [selectionSetComplexityLoop] using
        selectionSetComplexityLoop_range rest m _ hw.1 hw.2.1
  | Selection.inlineFragment none :: rest, m, c, h1, h2 => by
      simpa [selectionSetComplexityLoop] using
        selectionSetComplexityLoop_range rest m c h1 h2
  | Selection.fragmentSpread _ :: rest, m, c, _, _ => by
      have hw := wrapInt64_spec (c + m)
      simpa [selectionSetComplexityLoop] using
        selectionSetComplexityLoop_range rest m _ hw.1 hw.2.1

/-- Per-definition congruence of the wrapped and mathematical complexity. -/
theorem calculateDefinitionComplexityInt64_modEq (d : Definition) (m : Int) :
    (18446744073709551616 : Int) ∣
      (calculateDefinitionComplexityInt64 d m - calculateDefinitionComplexity d m) := by
  cases d with
  | operation oss =>
      cases oss with
      | some ss =>
          have h := selectionSetComplexityLoop_modEq ss m 0
          simp only [calculateDefinitionComplexityInt64, calculateDefinitionComplexity,
            calculateSelectionSetComplexityInt64]
          omega
      | none => simp [calculateDefinitionComplexityInt64, calculateDefinitionComplexity]
  | fragment oss =>
      cases oss with
      | some ss =>
          have h := selectionSetComplexityLoop_modEq ss m 0
          simp only [calculateDefinitionComplexityInt64, calculateDefinitionComplexity,
            calculateSelectionSetComplexityInt64]
          omega
      | none => simp [calculateDefinitionComplexityInt64, calculateDefinitionComplexity]
  | otherDef => simp [calculateDefinitionComplexityInt64, calculateDefinitionComplexity]

/-- The wrapped document loop is congruent mod 2^64 to the accumulator plus
the mathematical complexity. -/
theorem definitionsComplexityLoop_modEq :
    ∀ (defs : List Definition) (m c : Int),
      (18446744073709551616 : Int) ∣
        (definitionsComplexityLoop defs m c
          - (c + calculateDefinitionsComplexity defs m))
  | [], m, c => by
      simp [definitionsComplexityLoop, calculateDefinitionsComplexity]
  | d :: rest, m, c => by
      have hd := calculateDefinitionComplexityInt64_modEq d m
      have hrest := definitionsComplexityLoop_modEq rest m
        (wrapInt64 (c + calculateDefinitionComplexityInt64 d m))
      have hw := (wrapInt64_spec (c + calculateDefinitionComplexityInt64 d m)).2.2
      simp only [definitionsComplexityLoop, calculateDefinitionsComplexity]
      omega

/-- The wrapped document loop stays in the `int64` range when its
accumulator starts there. -/
theorem definitionsComplexityLoop_range :
    ∀ (defs : List Definition) (m c : Int),
      -9223372036854775808 ≤ c → c < 9223372036854775808 →
      -9223372036854775808 ≤ definitionsComplexityLoop defs m c ∧
        definitionsComplexityLoop defs m c < 9223372036854775808
  | [], m, c, h1, h2 => by
      simpa [definitionsComplexityLoop] using And.intro h1 h2
  | d :: rest, m, c, _, _ => by
      have hw := wrapInt64_spec (c + calculateDefinitionComplexityInt64 d m)
      simpa [definitionsComplexityLoop] using
        definitionsComplexityLoop_range rest m _ hw.1 hw.2.1

/-- The wrapped (Go `int`) complexity is the two's-complement reduction of
the mathematical complexity. -/
theorem calculateQueryComplexityInt64_eq_wrap (doc : Document) (m : Int) :
    calculateQueryComplexityInt64 doc m = wrapInt64 (calculateQueryComplexity doc m) := by
  have hmod := definitionsComplexityLoop_modEq doc.definitions m 0
  have hrange := definitionsComplexityLoop_range doc.definitions m 0
    (by omega) (by omega)
  have hw := wrapInt64_spec (calculateDefinitionsComplexity doc.definitions m)
  simp only [calculateQueryComplexityInt64, calculateQueryComplexity] at *
  omega

/-- When the mathematical complexity fits in `int64`, the wrapped
computation returns it exactly. -/
theorem calculateQueryComplexityInt64_eq_of_le (doc : Document) (m : Int)
    (h0 : 0 ≤ calculateQueryComplexity doc m)
    (hle : calculateQueryComplexity doc m ≤ 9223372036854775807) :
    calculateQueryComplexityInt64 doc m = calculateQueryComplexity doc m := by
  rw [calculateQueryComplexityInt64_eq_wrap]
  exact wrapInt64_eq_self (by omega) (by omega)

/-! ### Helper lemmas: the deep chain -/

/-- The chain-plus selection set arises from the chain by one leaf
insertion at the innermost level. -/
theorem addLeafSS_chain : ∀ n : Nat, AddLeafSS none (chainSS n) (chainPlusSS n)
  | 0 => AddLeafSS.insert (some "x") (chainSS 0)
  | n + 1 => AddLeafSS.inField none (some "f") (chainSS n) (chainPlusSS n) []
      (addLeafSS_chain n)

/-- Mathematical complexity of the chain: a chain of `n+1` nested fields at
multiplier `m` costs `(2^(n+1) - 1) * m`. -/
theorem chain_complexity :
    ∀ (n : Nat) (m : Int),
      calculateSelectionSetComplexity (chainSS n) m = (2 ^ (n + 1) - 1) * m
  | 0, m => by
      simp [chainSS, calculateSelectionSetComplexity]
  | n + 1, m => by
      simp only [chainSS, calculateSelectionSetComplexity,
        chain_complexity n (m * 2)]
      ring

/-- Mathematical complexity of the chain with the extra innermost leaf. -/
theorem chainPlus_complexity :
    ∀ (n : Nat) (m : Int),
      calculateSelectionSetComplexity (chainPlusSS n) m
        = (2 ^ (n + 1) - 1 + 2 ^ n) * m
  | 0, m => by
      simp [chainPlusSS, chainSS, calculateSelectionSetComplexity]
      ring
  | n + 1, m => by
      simp only [chainPlusSS, calculateSelectionSetComplexity,
        chainPlus_complexity n (m * 2)]
      ring

/-- At base weight 1 the 63-field chain document's mathematical complexity
is exactly the largest `int64`. -/
theorem deepChainDoc_value :
    calculateQueryComplexity deepChainDoc 1 = 9223372036854775807 := by
  simp only [calculateQueryComplexity, deepChainDoc, calculateDefinitionsComplexity,
    calculateDefinitionComplexity, chain_complexity 62 1]
  norm_num

/-- With the extra innermost leaf the mathematical complexity exceeds the
largest `int64` by 2^62. -/
theorem deepChainPlusDoc_value :
    calculateQueryComplexity deepChainPlusDoc 1 = 13835058055282163711 := by
  simp only [calculateQueryComplexity, deepChainPlusDoc,
    calculateDefinitionsComplexity, calculateDefinitionComplexity,
    chainPlus_complexity 62 1]
  norm_num

/-! ### The claims -/

/-- C1: `ValidateGraphQLQuery` returns success when the query string is
empty or when the (possibly JSON-unwrapped) query text fails to parse;
on a parsed document it returns an error exactly when the document has
introspection, or depth > 10, or alias count > 4, or complexity at base
weight 1 > 200, the checks being evaluated in that fixed order with the
first failing check determining the rejection reason. -/
theorem claim_C1_policy {Schema : Type}
    (unmarshal : String → Option (List (String × JsonValue)))
    (parse : String → Option Document) (q : String) (schema : Schema) :
    (q = "" → ValidateGraphQLQuery unmarshal parse q schema = ValidationResult.allowed) ∧
    (parse (extractQueryText unmarshal q) = none →
      ValidateGraphQLQuery unmarshal parse q schema = ValidationResult.allowed) ∧
    (∀ doc : Document, q ≠ "" → parse (extractQueryText unmarshal q) = some doc →
      ((ValidateGraphQLQuery unmarshal parse q schema = ValidationResult.allowed ↔
          hasIntrospection doc = false ∧ calculateQueryDepth doc 0 ≤ 10 ∧
          countAliases doc ≤ 4 ∧ calculateQueryComplexity doc 1 ≤ 200) ∧
        (hasIntrospection doc = true →
          ValidateGraphQLQuery unmarshal parse q schema
            = ValidationResult.introspectionDisabled) ∧
        (hasIntrospection doc = false → 10 < calculateQueryDepth doc 0 →
          ValidateGraphQLQuery unmarshal parse q schema
            = ValidationResult.depthExceeded 10 (calculateQueryDepth doc 0)) ∧
        (hasIntrospection doc = false → calculateQueryDepth doc 0 ≤ 10 →
          4 < countAliases doc →
          ValidateGraphQLQuery unmarshal parse q schema
            = ValidationResult.aliasLimitExceeded 4 (countAliases doc)) ∧
        (hasIntrospection doc = false → calculateQueryDepth doc 0 ≤ 10 →
          countAliases doc ≤ 4 → 200 < calculateQueryComplexity doc 1 →
          ValidateGraphQLQuery unmarshal parse q schema
            = ValidationResult.complexityExceeded 200 (calculateQueryComplexity doc 1)))) := by
  refine ⟨?_, ?_, ?_⟩
  · intro hq
    simp [ValidateGraphQLQuery, hq]
  · intro hp
    by_cases hq : q = ""
    · simp [ValidateGraphQLQuery, hq]
    · simp [ValidateGraphQLQuery, hq, hp]
  · intro doc hq hp
    have hv : ValidateGraphQLQuery unmarshal parse q schema = validateParsedDocument doc := by
      simp [ValidateGraphQLQuery, hq, hp]
    rw [hv]
    exact validateParsedDocument_spec doc

/-- C1 witness: with a parser that yields the Scenario D document, a
nonempty query string is rejected for introspection. -/
theorem claim_C1_policy_witness :
    ValidateGraphQLQuery (fun _ => none) (fun _ => some docScenarioD) "q" ()
      = ValidationResult.introspectionDisabled := by
  have hIntro : hasIntrospection docScenarioD = true := by
    simp [hasIntrospection, hasIntrospectionInDefinition,
      hasIntrospectionInSelectionSet, docScenarioD]
  exact ((claim_C1_policy (fun _ => none) (fun _ => some docScenarioD) "q" ()).2.2
    docScenarioD (by simp) rfl).2.1 hIntro

/-- C2 counterexample: the depth computed for Scenario B's document is 6,
not 11, and the document is allowed rather than rejected for depth. -/
theorem claim_C2_counterexample :
    calculateQueryDepth docScenarioB 0 = 6 ∧
    calculateQueryDepth docScenarioB 0 ≠ 11 ∧
    validateParsedDocument docScenarioB = ValidationResult.allowed ∧
    validateParsedDocument docScenarioB ≠ ValidationResult.depthExceeded 10 11 := by
  have h6 : calculateQueryDepth docScenarioB 0 = 6 := by
    simp [calculateQueryDepth, calculateDefinitionsDepth, calculateDefinitionDepth,
      calculateSelectionSetDepth, docScenarioB]
  have hv : validateParsedDocument docScenarioB = ValidationResult.allowed := by
    simp [validateParsedDocument, hasIntrospection, hasIntrospectionInDefinition,
      hasIntrospectionInSelectionSet, calculateQueryDepth, calculateDefinitionsDepth,
      calculateDefinitionDepth, calculateSelectionSetDepth, countAliases,
      countDefinitionsAliases, countDefinitionAliases, countSelectionSetAliases,
      calculateQueryComplexity, calculateDefinitionsComplexity,
      calculateDefinitionComplexity, calculateSelectionSetComplexity, docScenarioB]
  refine ⟨h6, by rw [h6] ; decide, hv, by rw [hv] ; decide⟩

/-- C2 (amended): for the document parsed from Scenario B's query, the
computed depth is 6, which does not exceed the limit of 10, so the check
chain of `ValidateGraphQLQuery` accepts the document. -/
theorem claim_C2_depth_six :
    calculateQueryDepth docScenarioB 0 = 6 ∧
    validateParsedDocument docScenarioB = ValidationResult.allowed := by
  constructor
  · simp [calculateQueryDepth, calculateDefinitionsDepth, calculateDefinitionDepth,
      calculateSelectionSetDepth, docScenarioB]
  · simp [validateParsedDocument, hasIntrospection, hasIntrospectionInDefinition,
      hasIntrospectionInSelectionSet, calculateQueryDepth, calculateDefinitionsDepth,
      calculateDefinitionDepth, calculateSelectionSetDepth, countAliases,
      countDefinitionsAliases, countDefinitionAliases, countSelectionSetAliases,
      calculateQueryComplexity, calculateDefinitionsComplexity,
      calculateDefinitionComplexity, calculateSelectionSetComplexity, docScenarioB]

/-- C3: `calculateQueryDepth(document, 0)` equals the spec's maximum-over-
the-tree description (definitions evaluated at their own depth, leaf fields
at d+1, composite fields recursing at d+1, inline fragments at d unchanged,
spreads contributing d, the empty document yielding 0). -/
theorem claim_C3_depth_follows_spec :
    (∀ doc : Document, calculateQueryDepth doc 0 = specQueryDepth doc) ∧
    calculateQueryDepth ⟨[]⟩ 0 = 0 := by
  constructor
  · intro doc
    simpa [calculateQueryDepth, specQueryDepth] using
      calculateDefinitionsDepth_eq_spec doc.definitions
  · simp [calculateQueryDepth, calculateDefinitionsDepth]

/-- C4: for every document and multiplier, `calculateQueryComplexity` equals
the spec's sum-over-branches description (each field adds m, nested sets are
charged at 2*m, inline fragments at m, spreads a flat m). -/
theorem claim_C4_complexity_follows_spec :
    ∀ (doc : Document) (m : Int),
      calculateQueryComplexity doc m = specQueryComplexity doc m := by
  intro doc m
  simpa [calculateQueryComplexity, specQueryComplexity] using
    calculateDefinitionsComplexity_eq_spec doc.definitions m

/-- C5: `hasIntrospection` is true exactly when some reachable field (not
through fragment spreads) is named `__schema` or `__type`, and a true result
makes the check chain reject with the introspection reason before any other
check. -/
theorem claim_C5_introspection :
    (∀ doc : Document, hasIntrospection doc = true ↔
      some "__schema" ∈ documentFieldNames doc
        ∨ some "__type" ∈ documentFieldNames doc) ∧
    (∀ doc : Document, hasIntrospection doc = true →
      validateParsedDocument doc = ValidationResult.introspectionDisabled) := by
  constructor
  · intro doc
    simpa [hasIntrospection, documentFieldNames] using
      hasIntrospection_defs_iff doc.definitions
  · intro doc h
    simp [validateParsedDocument, h]

/-- C5 witness: Scenario D's document contains `__schema` and is rejected
with the introspection reason. -/
theorem claim_C5_introspection_witness :
    hasIntrospection docScenarioD = true ∧
    validateParsedDocument docScenarioD = ValidationResult.introspectionDisabled := by
  have hIntro : hasIntrospection docScenarioD = true := by
    simp [hasIntrospection, hasIntrospectionInDefinition,
      hasIntrospectionInSelectionSet, docScenarioD]
  exact ⟨hIntro, claim_C5_introspection.2 docScenarioD hIntro⟩

/-- C6: `countAliases` counts exactly the reachable field nodes whose alias
is present and non-empty, and Scenario C's five-alias document is rejected
with limit 4 and actual 5. -/
theorem claim_C6_aliases :
    (∀ doc : Document,
      countAliases doc = ((documentFieldAliases doc).countP aliasPresent : Int)) ∧
    countAliases docScenarioC = 5 ∧
    validateParsedDocument docScenarioC = ValidationResult.aliasLimitExceeded 4 5 := by
  refine ⟨?_, ?_, ?_⟩
  · intro doc
    simpa [countAliases, documentFieldAliases] using
      countDefinitionsAliases_eq_countP doc.definitions
  · simp [countAliases, countDefinitionsAliases, countDefinitionAliases,
      countSelectionSetAliases, docScenarioC, aliasedUserField]
  · simp [validateParsedDocument, hasIntrospection, hasIntrospectionInDefinition,
      hasIntrospectionInSelectionSet, calculateQueryDepth, calculateDefinitionsDepth,
      calculateDefinitionDepth, calculateSelectionSetDepth, countAliases,
      countDefinitionsAliases, countDefinitionAliases, countSelectionSetAliases,
      calculateQueryComplexity, calculateDefinitionsComplexity,
      calculateDefinitionComplexity, calculateSelectionSetComplexity,
      docScenarioC, aliasedUserField]

/-- C7: the analyzed text is the JSON-unwrapped `query` member when the body
unmarshals to an object with a string `query`, and the raw body otherwise;
the unwrapped text is what gets parsed and validated. -/
theorem claim_C7_json_unwrap :
    (∀ (unmarshal : String → Option (List (String × JsonValue)))
       (body : String) (obj : List (String × JsonValue)) (q : String),
       unmarshal body = some obj → obj.lookup "query" = some (JsonValue.str q) →
       extractQueryText unmarshal body = q) ∧
    (∀ (unmarshal : String → Option (List (String × JsonValue))) (body : String),
       unmarshal body = none → extractQueryText unmarshal body = body) ∧
    (∀ (unmarshal : String → Option (List (String × JsonValue)))
       (body : String) (obj : List (String × JsonValue)),
       unmarshal body = some obj →
       (∀ q : String, obj.lookup "query" ≠ some (JsonValue.str q)) →
       extractQueryText unmarshal body = body) ∧
    (∀ (Schema : Type) (unmarshal : String → Option (List (String × JsonValue)))
       (parse : String → Option Document) (body : String) (s : Schema)
       (doc : Document),
       body ≠ "" → parse (extractQueryText unmarshal body) = some doc →
       ValidateGraphQLQuery unmarshal parse body s = validateParsedDocument doc) := by
  refine ⟨?_, ?_, ?_, ?_⟩
  · intro unmarshal body obj q hu hl
    simp [extractQueryText, hu, hl]
  · intro unmarshal body hu
    simp [extractQueryText, hu]
  · intro unmarshal body obj hu hl
    simp only [extractQueryText, hu]
  · intro Schema unmarshal parse body s doc hb hp
    simp [ValidateGraphQLQuery, hb, hp]

/-- C7 witness: the Scenario F body is unwrapped to `{ hello }` and the
validator analyzes the parsed `hello` document, not the raw JSON text. -/
theorem claim_C7_json_unwrap_witness :
    extractQueryText scenarioFUnmarshal scenarioFBody = "\x7b hello \x7d" ∧
    ValidateGraphQLQuery scenarioFUnmarshal scenarioFParse scenarioFBody ()
      = validateParsedDocument docHello := by
  have h1 : extractQueryText scenarioFUnmarshal scenarioFBody = "\x7b hello \x7d" :=
    claim_C7_json_unwrap.1 scenarioFUnmarshal scenarioFBody
      [("query", JsonValue.str "\x7b hello \x7d")] "\x7b hello \x7d"
      (by simp [scenarioFUnmarshal]) (by simp [List.lookup])
  refine ⟨h1, ?_⟩
  exact claim_C7_json_unwrap.2.2.2 Unit scenarioFUnmarshal scenarioFParse
    scenarioFBody () docHello (by simp [scenarioFBody])
    (by rw [h1]; simp [scenarioFParse])

/-- C8 counterexample: the program's (wrapping Go `int`) complexity
strictly decreases when a sibling leaf is added, both at the negative
multiplier -1 and — through `int64` overflow on a realizable 63-level
document — at the nonnegative multiplier 1. -/
theorem claim_C8_counterexample :
    (AddLeafDoc none docHello docHelloPlainLeaf ∧
      calculateQueryComplexityInt64 docHelloPlainLeaf (-1)
        < calculateQueryComplexityInt64 docHello (-1)) ∧
    (AddLeafDoc none deepChainDoc deepChainPlusDoc ∧
      calculateQueryComplexityInt64 deepChainPlusDoc 1
        < calculateQueryComplexityInt64 deepChainDoc 1) := by
  refine ⟨⟨?_, ?_⟩, ?_, ?_⟩
  · exact AddLeafDoc.inOperation _ _ [] (AddLeafSS.insert (some "x") _)
  · have h1 : calculateQueryComplexity docHello (-1) = -1 := by
      simp [calculateQueryComplexity, calculateDefinitionsComplexity,
        calculateDefinitionComplexity, calculateSelectionSetComplexity, docHello]
    have h2 : calculateQueryComplexity docHelloPlainLeaf (-1) = -2 := by
      simp [calculateQueryComplexity, calculateDefinitionsComplexity,
        calculateDefinitionComplexity, calculateSelectionSetComplexity,
        docHelloPlainLeaf]
    rw [calculateQueryComplexityInt64_eq_wrap, calculateQueryComplexityInt64_eq_wrap,
      h1, h2]
    unfold wrapInt64
    omega
  · exact AddLeafDoc.inOperation _ _ [] (addLeafSS_chain 62)
  · rw [calculateQueryComplexityInt64_eq_wrap, calculateQueryComplexityInt64_eq_wrap,
      deepChainDoc_value, deepChainPlusDoc_value]
    unfold wrapInt64
    omega

/-- C8 (amended): adding one sibling leaf field anywhere never decreases
the alias count (and increases it by exactly one when the added field
carries a present non-empty alias), never decreases the depth, and never
decreases the program's wrapping `int` complexity at any nonnegative
multiplier provided the enlarged document's mathematical complexity still
fits in `int64`. -/
theorem claim_C8_monotonicity {a : Option String} {doc doc' : Document}
    (h : AddLeafDoc a doc doc') :
    countAliases doc ≤ countAliases doc' ∧
    (aliasPresent a = true → countAliases doc' = countAliases doc + 1) ∧
    (∀ m : Int, 0 ≤ m →
      calculateQueryComplexity doc' m ≤ 9223372036854775807 →
      calculateQueryComplexityInt64 doc m ≤ calculateQueryComplexityInt64 doc' m) ∧
    calculateQueryDepth doc 0 ≤ calculateQueryDepth doc' 0 := by
  have hA := addLeafDoc_countAliases h
  have hnn : 0 ≤ aliasContribution a := by
    unfold aliasContribution
    split_ifs <;> omega
  refine ⟨by omega, ?_, ?_, addLeafDoc_depth_le h 0⟩
  · intro hp
    rw [hA]
    simp [aliasContribution, hp]
  · intro m hm hbound
    have hmono := addLeafDoc_complexity_le h m hm
    have h0 : 0 ≤ calculateQueryComplexity doc m :=
      calculateQueryComplexity_nonneg doc.definitions m hm
    have h0' : 0 ≤ calculateQueryComplexity doc' m :=
      calculateQueryComplexity_nonneg doc'.definitions m hm
    rw [calculateQueryComplexityInt64_eq_of_le doc m h0 (by omega),
      calculateQueryComplexityInt64_eq_of_le doc' m h0' hbound]
    exact hmono

/-- C8 witness: adding the aliased leaf `w: x` to the `hello` document
raises the alias count by one and does not decrease the wrapped complexity
(at multiplier 1, no overflow) or the depth. -/
theorem claim_C8_monotonicity_witness :
    countAliases docHelloAliasedLeaf = countAliases docHello + 1 ∧
    calculateQueryComplexityInt64 docHello 1
      ≤ calculateQueryComplexityInt64 docHelloAliasedLeaf 1 ∧
    calculateQueryDepth docHello 0 ≤ calculateQueryDepth docHelloAliasedLeaf 0 := by
  have hrel : AddLeafDoc (some "w") docHello docHelloAliasedLeaf :=
    AddLeafDoc.inOperation _ _ [] (AddLeafSS.insert (some "x") _)
  have h := claim_C8_monotonicity hrel
  have hval : calculateQueryComplexity docHelloAliasedLeaf 1 = 2 := by
    simp [calculateQueryComplexity, calculateDefinitionsComplexity,
      calculateDefinitionComplexity, calculateSelectionSetComplexity,
      docHelloAliasedLeaf]
  exact ⟨h.2.1 (by decide), h.2.2.1 1 (by decide) (by rw [hval]; decide), h.2.2.2⟩

/-- C9: the result of `ValidateGraphQLQuery` does not depend on the schema
argument: any two schema values give the same result. -/
theorem claim_C9_schema_not_read :
    ∀ (Schema : Type) (unmarshal : String → Option (List (String × JsonValue)))
      (parse : String → Option Document) (q : String) (s1 s2 : Schema),
      ValidateGraphQLQuery unmarshal parse q s1
        = ValidateGraphQLQuery unmarshal parse q s2 :=
  fun _ _ _ _ _ _ => rfl

/-- C10: complexity is homogeneous in the base weight:
`calculateQueryComplexity doc m = m * calculateQueryComplexity doc 1` for
every integer multiplier. -/
theorem claim_C10_complexity_linear :
    ∀ (doc : Document) (m : Int),
      calculateQueryComplexity doc m = m * calculateQueryComplexity doc 1 := by
  intro doc m
  simpa [calculateQueryComplexity] using
    calculateDefinitionsComplexity_hom doc.definitions m

end Graph
